import Mathlib

set_option autoImplicit false

/-!
Verification of the anonymization core of scripts/anonymize.py.

The dataset is modelled as a list of rows; a row is an association list from
column names to cell values.  A cell value is an integer, a string, or the
missing value (pandas NaN).  All functions below are shallow embeddings of the
correspondingly named Python functions; pandas semantics that matter to the
claims (NaN propagation, groupby dropping NaN keys, astype(str), to_numeric
coercion, str.split / str.pad / str.slice) are modelled explicitly.
-/

namespace DataPrivacy

/-- A cell value of a DataFrame column: an integer, a string, or a missing
value (pandas NaN / NA). -/
inductive Val : Type where
  | int : Int → Val
  | str : String → Val
  | missing : Val
deriving DecidableEq

/-- A row: an association list from column name to cell value. -/
abbrev Row : Type := List (String × Val)

/-- A dataset: an ordered list of rows. -/
abbrev DataFrame : Type := List Row

/-- Column access on one row (`row[col]`).  A column that is absent reads as
missing; the source only accesses columns of the fixed schema. -/
def getVal (r : Row) (c : String) : Val :=
  match r.find? (fun p => p.1 == c) with
  | some p => p.2
  | none => Val.missing

/-- Column assignment restricted to one row (`df[col] = ...`): replaces the
value at the given column name, appending the entry when the column is
absent. -/
def setVal (r : Row) (c : String) (v : Val) : Row :=
  if r.any (fun p => p.1 == c) then
    r.map (fun p => if p.1 == c then (c, v) else p)
  else r ++ [(c, v)]

/-- The column of a dataset, as the list of its cell values in row order. -/
def colView (df : DataFrame) (c : String) : List Val :=
  df.map (fun r => getVal r c)

/-- The decimal digit character of d ∈ [0,9]. -/
def digitChar : Nat → Char
  | 0 => '0'
  | 1 => '1'
  | 2 => '2'
  | 3 => '3'
  | 4 => '4'
  | 5 => '5'
  | 6 => '6'
  | 7 => '7'
  | 8 => '8'
  | _ => '9'

/-- Decimal digits of a natural number, most significant first; structural
recursion on a fuel argument (fuel n + 1 always suffices). -/
def natDigitsCore : Nat → Nat → List Char → List Char
  | 0, _, acc => acc
  | fuel + 1, n, acc =>
    if n < 10 then digitChar n :: acc
    else natDigitsCore fuel (n / 10) (digitChar (n % 10) :: acc)

/-- The decimal digit string of a natural number. -/
def natChars (n : Nat) : List Char := natDigitsCore (n + 1) n []

/-- Models Python str on an int (a minus sign followed by digits when
negative). -/
def intChars (n : Int) : List Char :=
  if n < 0 then '-' :: natChars (-n).toNat else natChars n.toNat

/-- pandas astype(str) at one cell: ints print in decimal, strings are kept,
NaN prints as the three letter string nan. -/
def valToStr : Val → String
  | Val.int n => String.mk (intChars n)
  | Val.str s => s
  | Val.missing => "nan"

/-- Python str.split at the dash character, modelled on character lists
(the empty string splits to one empty part, as in Python). -/
def splitOnDash : List Char → List (List Char)
  | [] => [[]]
  | c :: rest =>
    let r := splitOnDash rest
    if c = '-' then [] :: r
    else
      match r with
      | [] => [[c]]
      | p :: ps => (c :: p) :: ps

/-- The numeric value of a decimal digit character. -/
def digitVal? (c : Char) : Option Nat :=
  if c.isDigit then some (c.toNat - 48) else none

/-- Accumulating decimal parse of a digit string. -/
def parseNatFrom : List Char → Nat → Option Nat
  | [], acc => some acc
  | c :: cs, acc =>
    match digitVal? c with
    | some d => parseNatFrom cs (acc * 10 + d)
    | none => none

/-- Models pd.to_numeric(errors=coerce) on the strings that arise here: an
optional minus sign followed by decimal digits parses, anything else (the
empty string, the string nan, an interval label) coerces to NaN (none). -/
def parseIntChars : List Char → Option Int
  | [] => none
  | c :: cs =>
    if c = '-' then
      match cs with
      | [] => none
      | _ :: _ => (parseNatFrom cs 0).map (fun n => -(n : Int))
    else (parseNatFrom (c :: cs) 0).map (fun n => (n : Int))

/-- The number of mask characters in a string (str.count of the star). -/
def countStars (s : String) : Nat :=
  (s.toList.filter (fun c => c == '*')).length

/-- pandas str.pad(5, side=right, fillchar=star) on a character list. -/
def padStarTo5 (cs : List Char) : List Char :=
  cs ++ List.replicate (5 - cs.length) '*'

/-- generalize_zip from scripts/anonymize.py:
ZIP_Code := astype(str).slice(0, precision).pad(5, right, star). -/
def generalize_zip (df : DataFrame) (precision : Nat) : DataFrame :=
  df.map (fun r =>
    setVal r "ZIP_Code"
      (Val.str (String.mk (padStarTo5 ((valToStr (getVal r "ZIP_Code")).toList.take precision)))))

/-- The bin of n among the half-open intervals [bᵢ, bᵢ₊₁) (pd.cut with
right=False), with its label. -/
def findBin (n : Int) : List Int → List String → Option String
  | b0 :: b1 :: bs, lab :: labs =>
    if b0 ≤ n ∧ n < b1 then some lab else findBin n (b1 :: bs) labs
  | _, _ => none

/-- pd.cut at one cell: an integer inside some bin gets the bin label, an
integer outside every bin becomes missing (NaN), missing stays missing.
(pd.cut on a non-numeric column raises in pandas; non-numeric cells never
reach this call in the source and are modelled as the out-of-domain result.) -/
def cutVal (v : Val) (bins : List Int) (labels : List String) : Val :=
  match v with
  | Val.int n =>
    match findBin n bins labels with
    | some lab => Val.str lab
    | none => Val.missing
  | _ => Val.missing

/-- generalize_age from scripts/anonymize.py:
Age := pd.cut(Age, bins, labels, right=False). -/
def generalize_age (df : DataFrame) (bins : List Int) (labels : List String) : DataFrame :=
  df.map (fun r => setVal r "Age" (cutVal (getVal r "Age") bins labels))

/-- The tuple of (possibly generalized) quasi-identifier values of a row. -/
def rowKey (r : Row) (qis : List String) : List Val :=
  qis.map (fun q => getVal r q)

def isMissing : Val → Bool
  | Val.missing => true
  | _ => false

/-- pandas groupby drops a row whose group key contains NaN (the dropna=True
default). -/
def keyDropped (r : Row) (qis : List String) : Bool :=
  (rowKey r qis).any isMissing

/-- An equivalence class: its key tuple and its member rows with their row
indices. -/
abbrev Group : Type := List Val × List (Nat × Row)

/-- Adds an indexed row to the class with its key, creating the class when the
key is new. -/
def insertGroup : List Group → List Val → Nat × Row → List Group
  | [], key, p => [(key, [p])]
  | (k, ms) :: rest, key, p =>
    if k = key then (k, ms ++ [p]) :: rest else (k, ms) :: insertGroup rest key p

/-- Accumulates the equivalence classes of the rows (paired with their running
indices) in first-seen key order.  (pandas sorts group keys; every claim below
is insensitive to the order of the classes.) -/
def buildGroups (qis : List String) : List Row → Nat → List Group → List Group
  | [], _, acc => acc
  | r :: rs, i, acc =>
    buildGroups qis rs (i + 1)
      (if keyDropped r qis then acc else insertGroup acc (rowKey r qis) (i, r))

/-- get_equivalence_classes from scripts/anonymize.py:
df.groupby(qis, observed=True). -/
def get_equivalence_classes (df : DataFrame) (qis : List String) : List Group :=
  buildGroups qis df 0 []

/-- The sizes of the equivalence classes (groupby.size()). -/
def groupSizes (df : DataFrame) (qis : List String) : List Nat :=
  (get_equivalence_classes df qis).map (fun g => g.2.length)

/-- The minimum of a list, none when empty (a pandas min over an empty series
is NaN). -/
def listMin? {α : Type} [Min α] : List α → Option α
  | [] => none
  | x :: xs => some (xs.foldl min x)

/-- The maximum of a list, none when empty. -/
def listMax? {α : Type} [Max α] : List α → Option α
  | [] => none
  | x :: xs => some (xs.foldl max x)

/-- check_k_anonymity from scripts/anonymize.py: an empty frame passes; else
the minimum class size must reach k.  When every row was dropped from the
grouping the size series is empty, its min is NaN, and the NaN ≥ k comparison
is false. -/
def check_k_anonymity (df : DataFrame) (qis : List String) (k : Int) : Bool :=
  if df.isEmpty then true
  else
    match listMin? (groupSizes df qis) with
    | none => false
    | some m => decide (k ≤ (m : Int))

/-- The age generalization ladder of apply_k_anonymity. -/
def age_generalizations : List (List Int × List String) :=
  [([0, 20, 30, 40, 50, 60, 70, 80, 90, 100],
    ["0-19", "20-29", "30-39", "40-49", "50-59", "60-69", "70-79", "80-89", "90-99"]),
   ([0, 25, 50, 75, 100], ["0-24", "25-49", "50-74", "75-99"]),
   ([0, 50, 100], ["0-49", "50-99"]),
   ([0, 100], ["0-99"])]

/-- The ZIP precision ladder of apply_k_anonymity. -/
def zip_generalizations : List Nat := [4, 3, 2, 1]

/-- One iteration body of the while loop of apply_k_anonymity: regenerate from
the original frame df at generalization level gen_level.  The zip index uses
Python floor division, which is negative at level 0. -/
def gen_at_level (df : DataFrame) (qis : List String) (gen_level : Nat) : DataFrame :=
  let age_level_idx := gen_level / 2
  let zip_level_idx : Int := Int.fdiv ((gen_level : Int) - 1) 2
  let temp1 :=
    if "Age" ∈ qis then
      let p := age_generalizations.getD (min age_level_idx (age_generalizations.length - 1)) ([], [])
      generalize_age df p.1 p.2
    else df
  if "ZIP_Code" ∈ qis ∧ 0 ≤ zip_level_idx then
    generalize_zip temp1
      (zip_generalizations.getD (min zip_level_idx.toNat (zip_generalizations.length - 1)) 0)
  else temp1

/-- The while loop of apply_k_anonymity.  State: the current candidate frame
and the gen_level counter.  Result: the returned frame, which terminal print
fired (true = achieved, false = the error message after the cap), and the
final value of gen_level (the number of generalization attempts performed).
Structural recursion on fuel; called with fuel = 10 the fuel-0 arm is
unreachable, because the cap test gen_level + 1 > 10 exits first. -/
def kAnonGo (df : DataFrame) (qis : List String) (k : Int) :
    DataFrame → Nat → Nat → DataFrame × Bool × Nat
  | anon, gen_level, fuel =>
    if check_k_anonymity anon qis k then (anon, true, gen_level)
    else
      let temp := gen_at_level df qis gen_level
      if 10 < gen_level + 1 then (temp, false, gen_level + 1)
      else
        match fuel with
        | 0 => (temp, false, gen_level + 1)
        | f + 1 => kAnonGo df qis k temp (gen_level + 1) f

/-- apply_k_anonymity from scripts/anonymize.py (the returned triple records
the frame, the terminal print, and the final gen_level). -/
def apply_k_anonymity (df : DataFrame) (qis : List String) (k : Int) :
    DataFrame × Bool × Nat :=
  kAnonGo df qis k df 0 10

/-- The per-attribute sub-rung schedule transcribed from the words of spec
section 4.2, for comparison with gen_at_level: for level L derive
ageRung = floor(L / 2) clamped to the maximum defined age rung and
zipRungIdx = floor((L - 1) / 2); regenerate from the original frame, applying
the sub-rungs to exactly the quasi-identifiers present in the configured set,
and leaving the postal code unmodified whenever zipRungIdx is negative. -/
def spec_gen_at_level (df : DataFrame) (qis : List String) (L : Nat) : DataFrame :=
  let maxAgeRung := age_generalizations.length - 1
  let maxZipRung := zip_generalizations.length - 1
  let ageRung := min (L / 2) maxAgeRung
  let zipRungIdx : Int := Int.fdiv ((L : Int) - 1) 2
  let afterAge :=
    if "Age" ∈ qis then
      let p := age_generalizations.getD ageRung ([], [])
      generalize_age df p.1 p.2
    else df
  if "ZIP_Code" ∈ qis then
    if zipRungIdx < 0 then afterAge
    else generalize_zip afterAge (zip_generalizations.getD (min zipRungIdx.toNat maxZipRung) 0)
  else afterAge

/-- The count of distinct non-missing values of a list of cells
(series.dropna().nunique()). -/
def distinctCount (vs : List Val) : Nat :=
  ((vs.filter (fun v => !(isMissing v))).dedup).length

/-- check_l_diversity from scripts/anonymize.py: for every equivalence class,
the count of distinct non-missing sensitive values; classes below l_val are
collected; the first component is whether the failing list is empty. -/
def check_l_diversity (df : DataFrame) (sensitive_col : String) (qis : List String)
    (l_val : Int) : Bool × List (List Val × Nat) :=
  let eq_classes := get_equivalence_classes df qis
  let failing_groups := eq_classes.filterMap (fun g =>
    let diversity := distinctCount (g.2.map (fun p => getVal p.2 sensitive_col))
    if (diversity : Int) < l_val then some (g.1, diversity) else none)
  (failing_groups.isEmpty, failing_groups)

/-- The module level constant HMAC_SECRET_KEY of scripts/anonymize.py (the
byte literal, read as a string). -/
def HMAC_SECRET_KEY : String := "bcse318l-secret-key-for-reproducible-tokenization"

/-- The inner generate_token of tokenize_ids: the keyed hash of the value
under the baked-in key.  The hash itself (hmac.new(key, msg, sha256)
.hexdigest(), from the hashlib and hmac libraries) is not code of this
repository and enters as the explicit function argument H, taking the key and
the message. -/
def generate_token (H : String → String → String) (value : String) : String :=
  H HMAC_SECRET_KEY value

/-- Python dict(...) built from a list of pairs: later pairs overwrite earlier
ones with the same key. -/
def dictInsert (d : List (String × String)) (kv : String × String) : List (String × String) :=
  if d.any (fun p => p.1 == kv.1) then
    d.map (fun p => if p.1 == kv.1 then kv else p)
  else d ++ [kv]

/-- tokenize_ids from scripts/anonymize.py: each identifier is replaced by its
token, and the vault maps every distinct original identifier to its token.
The Python .apply calls value.encode on each cell, which raises unless every
cell of the column is a string; that failure is modelled as none. -/
def tokenize_ids (H : String → String → String) (df : DataFrame) (id_col : String) :
    Option (DataFrame × List (String × String)) :=
  if df.all (fun r => match getVal r id_col with | Val.str _ => true | _ => false) then
    let token : Row → Val := fun r =>
      match getVal r id_col with
      | Val.str s => Val.str (generate_token H s)
      | v => v
    let df_tokenized := df.map (fun r => setVal r id_col (token r))
    let vault := (df.map (fun r => (valToStr (getVal r id_col), valToStr (token r)))).foldl dictInsert []
    some (df_tokenized, vault)
  else none

/-- simulate_linkage_attack from scripts/anonymize.py: the fraction of
equivalence classes of size one among the record count (0 for an empty
frame); Python float division is modelled as exact rational division. -/
def simulate_linkage_attack (df : DataFrame) (attacker_qis : List String) : Rat :=
  let group_sizes := groupSizes df attacker_qis
  let num_unique := (group_sizes.filter (fun s => s == 1)).length
  if 0 < df.length then (num_unique : Rat) / (df.length : Rat) else 0

/-- A column is numeric for pd.api.types.is_numeric_dtype when every cell is
an integer or NaN (a cell holding a string makes the dtype object). -/
def isNumericCol (col : List Val) : Bool :=
  col.all (fun v => match v with | Val.str _ => false | _ => true)

/-- The integer cells of a column (pandas min and max skip NaN). -/
def colInts (col : List Val) : List Int :=
  col.filterMap (fun v => match v with | Val.int n => some n | _ => none)

/-- The numeric-branch row term of compute_ncp: the anonymized cell printed as
a string is split at the dash; low is the first part coerced to a number,
high is the second when present (high.fillna(low)) and low itself otherwise;
the result is the absolute width |high - low|, or none when the pandas
arithmetic yields NaN (such a term is skipped by the NaN-skipping sum). -/
def ageRowRange (v : Val) : Option Nat :=
  let parts := splitOnDash (valToStr v).toList
  let low := parseIntChars (parts.headD [])
  let high :=
    if parts.length = 1 then low
    else
      match parseIntChars (parts.getD 1 []) with
      | some h => some h
      | none => low
  match low, high with
  | some lo, some hi => some (hi - lo).natAbs
  | _, _ => none

/-- The Age contribution of compute_ncp: total_range = max - min of the
original Age column; a zero range is skipped; otherwise the NaN-skipping sum
over the anonymized rows of |high - low| / total_range.  An all-NaN original
column gives a NaN range, every quotient is then NaN, and the sum is 0. -/
def ageColNCP (origCol anonCol : List Val) : Rat :=
  match listMin? (colInts origCol), listMax? (colInts origCol) with
  | some mn, some mx =>
    let range := mx - mn
    if range = 0 then 0
    else ((anonCol.filterMap ageRowRange).map (fun (d : Nat) => (d : Rat) / (range : Rat))).sum
  | _, _ => 0

/-- The ZIP_Code contribution of compute_ncp: the sum over anonymized rows of
(count of mask characters) / 5. -/
def zipColNCP (anonCol : List Val) : Rat :=
  (anonCol.map (fun v => (countStars (valToStr v) : Rat) / 5)).sum

/-- The per-attribute contribution of compute_ncp: the numeric branch applies
exactly to a numeric Age column; the mask-count branch to ZIP_Code; every
other attribute contributes 0. -/
def qiNCP (orig anon : DataFrame) (qi : String) : Rat :=
  if isNumericCol (colView orig qi) && qi == "Age" then
    ageColNCP (colView orig "Age") (colView anon "Age")
  else if qi == "ZIP_Code" then
    zipColNCP (colView anon "ZIP_Code")
  else 0

/-- compute_ncp from scripts/anonymize.py: the per-attribute contributions
summed over the quasi-identifiers, normalized by record count times number of
quasi-identifiers; 0.0 for an empty original frame.  (With a nonempty frame
and an empty quasi-identifier list the Python divides by zero; the rational
convention x / 0 = 0 stands in for that unreachable case, and every theorem
below assumes the list nonempty.) -/
def compute_ncp (orig anon : DataFrame) (qis : List String) : Rat :=
  let total := (qis.map (fun qi => qiNCP orig anon qi)).sum
  if 0 < orig.length then total / ((orig.length : Rat) * (qis.length : Rat)) else 0

/-! ### Association-list lemmas -/

theorem find?_map_replace (r : Row) (c : String) (v : Val) :
    (r.map (fun p => if p.1 == c then (c, v) else p)).find? (fun p => p.1 == c) =
      (r.find? (fun p => p.1 == c)).map (fun _ => (c, v)) := by
  rw [List.find?_map]
  have hpred : ((fun p : String × Val => p.1 == c) ∘ fun p => if p.1 == c then (c, v) else p) =
      fun p : String × Val => p.1 == c := by
    funext p
    by_cases hp : (p.1 == c) = true
    · simp [Function.comp, hp]
    · simp [Function.comp, hp]
  rw [hpred]
  rcases hfind : r.find? (fun p => p.1 == c) with _ | q
  · rw [hfind]
    rfl
  · have hq := List.find?_some hfind
    have hiq : (if (q.1 == c) = true then (c, v) else q) = (c, v) := if_pos hq
    rw [hfind]
    simp only [Option.map_some']
    exact congrArg some hiq

theorem find?_map_replace_ne (r : Row) (c c' : String) (v : Val) (h : c' ≠ c) :
    (r.map (fun p => if p.1 == c then (c, v) else p)).find? (fun p => p.1 == c') =
      r.find? (fun p => p.1 == c') := by
  rw [List.find?_map]
  have h1 : (c == c') = false := by
    rw [beq_eq_false_iff_ne]
    exact fun hcc => h hcc.symm
  have hpred : ((fun p : String × Val => p.1 == c') ∘ fun p => if p.1 == c then (c, v) else p) =
      fun p : String × Val => p.1 == c' := by
    funext p
    by_cases hp : (p.1 == c) = true
    · have hp' : p.1 = c := by simpa using hp
      simp [Function.comp, hp, hp', h1]
    · simp [Function.comp, hp]
  rw [hpred]
  rcases hfind : r.find? (fun p => p.1 == c') with _ | q
  · rw [hfind]
    rfl
  · have hq := List.find?_some hfind
    have hq' : q.1 = c' := by simpa using hq
    have hqc : (q.1 == c) = false := by
      rw [hq', beq_eq_false_iff_ne]
      exact fun hcc => h hcc
    rw [hfind]
    simp only [Option.map_some', hqc, Bool.false_eq_true, if_false]

theorem getVal_setVal_self (r : Row) (c : String) (v : Val) :
    getVal (setVal r c v) c = v := by
  unfold getVal setVal
  by_cases h : (r.any fun p => p.1 == c) = true
  · rw [if_pos h, find?_map_replace]
    rcases hfind : r.find? (fun p => p.1 == c) with _ | q
    · rw [List.find?_eq_none] at hfind
      rcases List.any_eq_true.mp h with ⟨x, hx, hpx⟩
      exact absurd hpx (hfind x hx)
    · rw [hfind]
      rfl
  · rw [if_neg h]
    have hnone : r.find? (fun p => p.1 == c) = none := by
      rw [List.find?_eq_none]
      intro x hx hpx
      exact h (List.any_eq_true.mpr ⟨x, hx, hpx⟩)
    rw [List.find?_append, hnone]
    simp

theorem getVal_setVal_ne (r : Row) (c c' : String) (v : Val) (h : c' ≠ c) :
    getVal (setVal r c v) c' = getVal r c' := by
  unfold getVal setVal
  by_cases hAny : (r.any fun p => p.1 == c) = true
  · rw [if_pos hAny, find?_map_replace_ne r c c' v h]
  · rw [if_neg hAny, List.find?_append]
    have hcc : ¬ (((c, v).1 == c') = true) := by
      simp only [beq_iff_eq]
      exact fun hcc => h hcc.symm
    have hsing : List.find? (fun p => p.1 == c') [(c, v)] = none := by
      rw [List.find?_eq_none]
      intro x hx hpx
      rw [List.mem_singleton] at hx
      subst hx
      exact hcc hpx
    rw [hsing, Option.or_none]

/-! ### Column views of the generalization functions -/

theorem colView_generalize_age_self (df : DataFrame) (bins : List Int) (labels : List String) :
    colView (generalize_age df bins labels) "Age" =
      (colView df "Age").map (fun v => cutVal v bins labels) := by
  unfold colView generalize_age
  rw [List.map_map, List.map_map]
  exact List.map_congr_left fun r _ => getVal_setVal_self r "Age" _

theorem colView_generalize_age_ne (df : DataFrame) (bins : List Int) (labels : List String)
    (c : String) (h : c ≠ "Age") :
    colView (generalize_age df bins labels) c = colView df c := by
  unfold colView generalize_age
  rw [List.map_map]
  exact List.map_congr_left fun r _ => getVal_setVal_ne r "Age" c _ h

theorem colView_generalize_zip_ne (df : DataFrame) (precision : Nat)
    (c : String) (h : c ≠ "ZIP_Code") :
    colView (generalize_zip df precision) c = colView df c := by
  unfold colView generalize_zip
  rw [List.map_map]
  exact List.map_congr_left fun r _ => getVal_setVal_ne r "ZIP_Code" c _ h

/-! ### Claim C1: the enforcement schedule -/

theorem gen_at_level_eq_spec (df : DataFrame) (qis : List String) (L : Nat) :
    gen_at_level df qis L = spec_gen_at_level df qis L := by
  unfold gen_at_level spec_gen_at_level
  by_cases hz : "ZIP_Code" ∈ qis
  · by_cases hneg : Int.fdiv ((L : Int) - 1) 2 < 0
    · rw [if_neg (by exact fun hc => absurd hc.2 (by omega)), if_pos hz, if_pos hneg]
    · rw [if_pos ⟨hz, by omega⟩, if_pos hz, if_neg hneg]
  · rw [if_neg (fun hc => hz hc.1), if_neg hz]

theorem gen_at_level_zip_unmodified (df : DataFrame) (qis : List String) (L : Nat)
    (h : Int.fdiv ((L : Int) - 1) 2 < 0) :
    colView (gen_at_level df qis L) "ZIP_Code" = colView df "ZIP_Code" := by
  unfold gen_at_level
  rw [if_neg (by exact fun hc => absurd hc.2 (by omega))]
  by_cases ha : "Age" ∈ qis
  · rw [if_pos ha]
    exact colView_generalize_age_ne _ _ _ _ (by decide)
  · rw [if_neg ha]

theorem gen_at_level_non_qi_unmodified (df : DataFrame) (qis : List String) (L : Nat)
    (c : String) (h : c ∉ qis) :
    colView (gen_at_level df qis L) c = colView df c := by
  unfold gen_at_level
  have step1 :
      colView (if "Age" ∈ qis then
          generalize_age df (age_generalizations.getD
            (min (L / 2) (age_generalizations.length - 1)) ([], [])).1
            (age_generalizations.getD (min (L / 2) (age_generalizations.length - 1)) ([], [])).2
        else df) c = colView df c := by
    by_cases ha : "Age" ∈ qis
    · rw [if_pos ha]
      exact colView_generalize_age_ne _ _ _ _ (fun hc => h (by rw [hc]; exact ha))
    · rw [if_neg ha]
  by_cases hz : "ZIP_Code" ∈ qis ∧ 0 ≤ Int.fdiv ((L : Int) - 1) 2
  · rw [if_pos hz]
    rw [colView_generalize_zip_ne _ _ _ (fun hc => h (by rw [hc]; exact hz.1))]
    exact step1
  · rw [if_neg hz]
    exact step1

/-- C1.  At every attempt level L of the k-anonymity enforcement loop, the
generalization step equals the spec schedule (age sub-rung floor(L / 2)
clamped to the maximum rung, zip sub-rung index floor((L - 1) / 2), both
applied only to configured quasi-identifiers, regenerated from the original
frame df); the postal code column is unmodified whenever the zip index is
negative; columns outside the configured quasi-identifier set are unmodified;
and when the current candidate fails the k-test the loop continues from the
frame regenerated from the original and re-tests it (the recursion recomputes
the partition and the k-test on gen_at_level df qis L). -/
theorem claim_c1_enforcement_schedule (df : DataFrame) (qis : List String) (k : Int)
    (anon : DataFrame) (L fuel : Nat) :
    gen_at_level df qis L = spec_gen_at_level df qis L
    ∧ (Int.fdiv ((L : Int) - 1) 2 < 0 →
        colView (gen_at_level df qis L) "ZIP_Code" = colView df "ZIP_Code")
    ∧ (∀ c, c ∉ qis → colView (gen_at_level df qis L) c = colView df c)
    ∧ (check_k_anonymity anon qis k = false →
        kAnonGo df qis k anon L (fuel + 1) =
          if 10 < L + 1 then (gen_at_level df qis L, false, L + 1)
          else kAnonGo df qis k (gen_at_level df qis L) (L + 1) fuel) := by
  refine ⟨gen_at_level_eq_spec df qis L, gen_at_level_zip_unmodified df qis L,
    fun c hc => gen_at_level_non_qi_unmodified df qis L c hc, fun hfail => ?_⟩
  conv_lhs => rw [kAnonGo]
  rw [hfail]
  simp only [Bool.false_eq_true, if_false]

theorem claim_c1_witness :
    (gen_at_level [[("Age", Val.int 33)]] ["Age"] 0 = spec_gen_at_level [[("Age", Val.int 33)]] ["Age"] 0)
    ∧ colView (gen_at_level [[("Age", Val.int 33)]] ["Age"] 0) "ZIP_Code" =
        colView [[("Age", Val.int 33)]] "ZIP_Code"
    ∧ colView (gen_at_level [[("Age", Val.int 33)]] ["Age"] 0) "Gender" =
        colView [[("Age", Val.int 33)]] "Gender"
    ∧ kAnonGo [[("Age", Val.int 33)]] ["Age"] 2 [[("Age", Val.int 33)]] 0 10 =
        kAnonGo [[("Age", Val.int 33)]] ["Age"] 2
          (gen_at_level [[("Age", Val.int 33)]] ["Age"] 0) 1 9 := by
  obtain ⟨h1, h2, h3, h4⟩ :=
    claim_c1_enforcement_schedule [[("Age", Val.int 33)]] ["Age"] 2 [[("Age", Val.int 33)]] 0 9
  refine ⟨h1, h2 (by decide), h3 "Gender" (by decide), ?_⟩
  rw [h4 (by decide)]
  norm_num

/-! ### Lemmas about the enforcement loop -/

theorem kAnonGo_eq (df : DataFrame) (qis : List String) (k : Int)
    (anon : DataFrame) (L fuel : Nat) :
    kAnonGo df qis k anon L fuel =
      if check_k_anonymity anon qis k = true then (anon, true, L)
      else if 10 < L + 1 then (gen_at_level df qis L, false, L + 1)
      else
        match fuel with
        | 0 => (gen_at_level df qis L, false, L + 1)
        | f + 1 => kAnonGo df qis k (gen_at_level df qis L) (L + 1) f := by
  cases fuel <;> rfl

theorem kAnonGo_level_ge (df : DataFrame) (qis : List String) (k : Int) :
    ∀ fuel L anon, L ≤ (kAnonGo df qis k anon L fuel).2.2 := by
  intro fuel
  induction fuel with
  | zero =>
    intro L anon
    rw [kAnonGo_eq]
    by_cases h : check_k_anonymity anon qis k = true
    · rw [if_pos h]
    · rw [if_neg h]
      by_cases hc : 10 < L + 1
      · rw [if_pos hc]
        exact Nat.le_succ L
      · rw [if_neg hc]
        exact Nat.le_succ L
  | succ f ih =>
    intro L anon
    rw [kAnonGo_eq]
    by_cases h : check_k_anonymity anon qis k = true
    · rw [if_pos h]
    · rw [if_neg h]
      by_cases hc : 10 < L + 1
      · rw [if_pos hc]
        exact Nat.le_succ L
      · rw [if_neg hc]
        exact Nat.le_of_succ_le (ih (L + 1) (gen_at_level df qis L))

theorem check_k_anonymity_anti (d : DataFrame) (qis : List String) {k1 k2 : Int}
    (hk : k1 ≤ k2) (h : check_k_anonymity d qis k2 = true) :
    check_k_anonymity d qis k1 = true := by
  unfold check_k_anonymity at h ⊢
  by_cases he : d.isEmpty
  · rw [if_pos he]
  · rw [if_neg he] at h ⊢
    rcases hm : listMin? (groupSizes d qis) with _ | m
    · rw [hm] at h
      simp at h
    · rw [hm] at h
      simp only [decide_eq_true_eq] at h ⊢
      omega

theorem kAnonGo_level_mono (df : DataFrame) (qis : List String) {k1 k2 : Int}
    (hk : k1 ≤ k2) :
    ∀ fuel L anon,
      (kAnonGo df qis k1 anon L fuel).2.2 ≤ (kAnonGo df qis k2 anon L fuel).2.2 := by
  intro fuel
  induction fuel with
  | zero =>
    intro L anon
    rw [kAnonGo_eq, kAnonGo_eq]
    by_cases h2 : check_k_anonymity anon qis k2 = true
    · rw [if_pos h2, if_pos (check_k_anonymity_anti anon qis hk h2)]
    · rw [if_neg h2]
      by_cases h1 : check_k_anonymity anon qis k1 = true
      · rw [if_pos h1]
        by_cases hc : 10 < L + 1
        · rw [if_pos hc]
          exact Nat.le_succ L
        · rw [if_neg hc]
          exact Nat.le_succ L
      · rw [if_neg h1]
  | succ f ih =>
    intro L anon
    rw [kAnonGo_eq, kAnonGo_eq]
    by_cases h2 : check_k_anonymity anon qis k2 = true
    · rw [if_pos h2, if_pos (check_k_anonymity_anti anon qis hk h2)]
    · rw [if_neg h2]
      by_cases h1 : check_k_anonymity anon qis k1 = true
      · rw [if_pos h1]
        by_cases hc : 10 < L + 1
        · rw [if_pos hc]
          exact Nat.le_succ L
        · rw [if_neg hc]
          exact Nat.le_of_succ_le (kAnonGo_level_ge df qis k2 f (L + 1) (gen_at_level df qis L))
      · rw [if_neg h1]
        by_cases hc : 10 < L + 1
        · rw [if_pos hc, if_pos hc]
        · rw [if_neg hc, if_neg hc]
          exact ih (L + 1) (gen_at_level df qis L)

theorem kAnonGo_cap (df : DataFrame) (qis : List String) (k : Int) :
    ∀ fuel L anon, L + fuel = 10 →
      (kAnonGo df qis k anon L fuel).2.2 ≤ 11 ∧
      ((kAnonGo df qis k anon L fuel).2.1 = false →
        (kAnonGo df qis k anon L fuel).2.2 = 11 ∧
        (kAnonGo df qis k anon L fuel).1 = gen_at_level df qis 10) := by
  intro fuel
  induction fuel with
  | zero =>
    intro L anon hL
    rw [kAnonGo_eq]
    by_cases h : check_k_anonymity anon qis k = true
    · rw [if_pos h]
      exact ⟨show L ≤ 11 by omega, fun hf => by simp at hf⟩
    · rw [if_neg h]
      have hc : 10 < L + 1 := by omega
      rw [if_pos hc]
      refine ⟨show L + 1 ≤ 11 by omega, fun _ => ⟨show L + 1 = 11 by omega, ?_⟩⟩
      show gen_at_level df qis L = gen_at_level df qis 10
      rw [show L = 10 by omega]
  | succ f ih =>
    intro L anon hL
    rw [kAnonGo_eq]
    by_cases h : check_k_anonymity anon qis k = true
    · rw [if_pos h]
      exact ⟨show L ≤ 11 by omega, fun hf => by simp at hf⟩
    · rw [if_neg h]
      have hc : ¬ 10 < L + 1 := by omega
      rw [if_neg hc]
      exact ih (L + 1) (gen_at_level df qis L) (by omega)

/-! ### Claim C3: the iteration cap -/

/-- C3 is false as stated: the search is not bounded by 10 attempts.  On a
one-record frame with k = 2, which no generalization can satisfy, the loop
performs 11 generalization attempts (the level counter, incremented once per
attempt, is 11 at exit), exceeding the documented cap of 10. -/
theorem claim_c3_counterexample :
    (apply_k_anonymity [[("Age", Val.int 30)]] ["Age"] 2).2.2 = 11 ∧
    ¬ (apply_k_anonymity [[("Age", Val.int 30)]] ["Age"] 2).2.2 ≤ 10 := by
  decide

/-- C3 (amended).  The enforcement search is bounded by a safety cap of 11
attempts (the gen_level counter is tested against 10 after its increment);
when the loop exits with the not-satisfied signal (the error diagnostic, the
false component) it has performed exactly 11 attempts and terminates
non-fatally, returning the best-effort generalized frame produced by the last
attempt (level 10 regenerated from the original frame). -/
theorem claim_c3_cap_behavior (df : DataFrame) (qis : List String) (k : Int) :
    (apply_k_anonymity df qis k).2.2 ≤ 11 ∧
    ((apply_k_anonymity df qis k).2.1 = false →
      (apply_k_anonymity df qis k).2.2 = 11 ∧
      (apply_k_anonymity df qis k).1 = gen_at_level df qis 10) :=
  kAnonGo_cap df qis k 10 0 df rfl

theorem claim_c3_witness :
    (apply_k_anonymity [[("Age", Val.int 25)]] ["Age"] 2).2.2 = 11 ∧
    (apply_k_anonymity [[("Age", Val.int 25)]] ["Age"] 2).1 =
      gen_at_level [[("Age", Val.int 25)]] ["Age"] 10 :=
  (claim_c3_cap_behavior [[("Age", Val.int 25)]] ["Age"] 2).2 (by decide)

/-! ### Claim C9: monotone severity in k -/

/-- C9.  For a fixed frame and quasi-identifier set, a larger target k never
reaches a smaller final generalization level: the gen_level counter at exit
(the number of generalization attempts performed) is monotone in k. -/
theorem claim_c9_monotone_level (df : DataFrame) (qis : List String) (k1 k2 : Int)
    (hk : k1 ≤ k2) :
    (apply_k_anonymity df qis k1).2.2 ≤ (apply_k_anonymity df qis k2).2.2 :=
  kAnonGo_level_mono df qis hk 10 0 df

theorem claim_c9_witness :
    (apply_k_anonymity [[("Age", Val.int 22)], [("Age", Val.int 23)]] ["Age"] 1).2.2 ≤
      (apply_k_anonymity [[("Age", Val.int 22)], [("Age", Val.int 23)]] ["Age"] 2).2.2 :=
  claim_c9_monotone_level _ _ 1 2 (by norm_num)

/-! ### Group-shape lemmas and claim C10 -/

theorem insertGroup_ne_nil (gs : List Group) (key : List Val) (p : Nat × Row) :
    insertGroup gs key p ≠ [] := by
  cases gs with
  | nil => simp [insertGroup]
  | cons g0 rest =>
    rcases g0 with ⟨k0, ms⟩
    unfold insertGroup
    by_cases h : k0 = key <;> simp [h]

theorem buildGroups_ne_nil_of_acc (qis : List String) :
    ∀ (rs : List Row) (i : Nat) (acc : List Group), acc ≠ [] →
      buildGroups qis rs i acc ≠ [] := by
  intro rs
  induction rs with
  | nil =>
    intro i acc h
    exact h
  | cons r rs ih =>
    intro i acc h
    rw [buildGroups]
    by_cases hd : keyDropped r qis = true
    · rw [if_pos hd]
      exact ih _ _ h
    · rw [if_neg hd]
      exact ih _ _ (insertGroup_ne_nil _ _ _)

theorem insertGroup_mem_ne_nil (key : List Val) (p : Nat × Row) :
    ∀ gs : List Group, (∀ g ∈ gs, g.2 ≠ []) → ∀ g ∈ insertGroup gs key p, g.2 ≠ [] := by
  intro gs
  induction gs with
  | nil =>
    intro _ g hg
    rw [insertGroup, List.mem_singleton] at hg
    subst hg
    simp
  | cons g0 rest ih =>
    rcases g0 with ⟨k0, ms⟩
    intro hgs g hg
    rw [insertGroup] at hg
    by_cases h : k0 = key
    · rw [if_pos h] at hg
      rcases List.mem_cons.mp hg with hg | hg
      · subst hg
        simp
      · exact hgs _ (List.mem_cons_of_mem _ hg)
    · rw [if_neg h] at hg
      rcases List.mem_cons.mp hg with hg | hg
      · subst hg
        exact hgs _ (List.mem_cons_self _ _)
      · exact ih (fun g' hg' => hgs g' (List.mem_cons_of_mem _ hg')) g hg

theorem buildGroups_mem_ne_nil (qis : List String) :
    ∀ (rs : List Row) (i : Nat) (acc : List Group), (∀ g ∈ acc, g.2 ≠ []) →
      ∀ g ∈ buildGroups qis rs i acc, g.2 ≠ [] := by
  intro rs
  induction rs with
  | nil =>
    intro i acc hacc
    exact hacc
  | cons r rs ih =>
    intro i acc hacc
    rw [buildGroups]
    by_cases hd : keyDropped r qis = true
    · rw [if_pos hd]
      exact ih _ _ hacc
    · rw [if_neg hd]
      exact ih _ _ (insertGroup_mem_ne_nil _ _ _ hacc)

theorem foldl_min_mem {α : Type} [LinearOrder α] :
    ∀ (xs : List α) (x : α), xs.foldl min x ∈ x :: xs := by
  intro xs
  induction xs with
  | nil =>
    intro x
    simp
  | cons y ys ih =>
    intro x
    rw [List.foldl_cons]
    have hmem := ih (min x y)
    rcases List.mem_cons.mp hmem with h1 | h1
    · rw [h1]
      rcases min_choice x y with h | h
      · rw [h]
        exact List.mem_cons_self _ _
      · rw [h]
        exact List.mem_cons_of_mem _ (List.mem_cons_self _ _)
    · exact List.mem_cons_of_mem _ (List.mem_cons_of_mem _ h1)

theorem listMin?_mem {α : Type} [LinearOrder α] {l : List α} {m : α}
    (h : listMin? l = some m) : m ∈ l := by
  cases l with
  | nil => exact absurd h (by simp [listMin?])
  | cons x xs =>
    rw [listMin?, Option.some_inj] at h
    rw [← h]
    exact foldl_min_mem xs x

theorem check_k_anonymity_of_clean (df : DataFrame) (qis : List String) (k : Int)
    (hclean : ∀ r ∈ df, keyDropped r qis = false) (hk : k ≤ 1) :
    check_k_anonymity df qis k = true := by
  unfold check_k_anonymity
  cases df with
  | nil => rfl
  | cons r rs =>
    rw [if_neg (by simp)]
    have hne : get_equivalence_classes (r :: rs) qis ≠ [] := by
      unfold get_equivalence_classes
      rw [buildGroups, if_neg (by rw [hclean r (List.mem_cons_self _ _)]; simp)]
      exact buildGroups_ne_nil_of_acc qis rs 1 _ (insertGroup_ne_nil _ _ _)
    have hsz : groupSizes (r :: rs) qis ≠ [] := by
      unfold groupSizes
      intro h
      exact hne (List.map_eq_nil_iff.mp h)
    rcases hm : listMin? (groupSizes (r :: rs) qis) with _ | m
    · rcases hgs : groupSizes (r :: rs) qis with _ | ⟨s, ss⟩
      · exact absurd hgs hsz
      · rw [hgs, listMin?] at hm
        exact absurd hm (by simp)
    · have hmem : m ∈ groupSizes (r :: rs) qis := listMin?_mem hm
      have h1 : 1 ≤ m := by
        rcases List.mem_map.mp hmem with ⟨g, hg, hgx⟩
        have hne2 := buildGroups_mem_ne_nil qis (r :: rs) 0 []
          (fun g' hg' => absurd hg' (List.not_mem_nil g')) g hg
        rw [← hgx]
        exact List.length_pos.mpr hne2
      simp only [decide_eq_true_eq]
      omega

/-- C10.  With a non-empty quasi-identifier set, a frame in which no row has a
missing quasi-identifier value, and any k at most 1, the enforcer returns the
frame unchanged after zero generalization attempts (every equivalence class
already has size at least one, so the k-test passes before the loop body ever
runs), with the satisfied signal. -/
theorem claim_c10_trivial_k (df : DataFrame) (qis : List String) (k : Int)
    (hq : qis ≠ []) (hclean : ∀ r ∈ df, keyDropped r qis = false) (hk : k ≤ 1) :
    apply_k_anonymity df qis k = (df, true, 0) := by
  unfold apply_k_anonymity
  rw [kAnonGo_eq, if_pos (check_k_anonymity_of_clean df qis k hclean hk)]

theorem claim_c10_witness :
    apply_k_anonymity [[("Age", Val.int 30), ("ZIP_Code", Val.str "12345")]] ["Age", "ZIP_Code"] 1 =
      ([[("Age", Val.int 30), ("ZIP_Code", Val.str "12345")]], true, 0) :=
  claim_c10_trivial_k _ _ 1 (by decide) (by decide) (by norm_num)

/-! ### Claim C6: the partition invariant of the classifier -/

/-- The total number of occurrences of row index j across the member lists of
the classes. -/
def countIn (gs : List Group) (j : Nat) : Nat :=
  (gs.map (fun g => (g.2.map Prod.fst).count j)).sum

theorem countIn_insertGroup (key : List Val) (p : Nat × Row) (j : Nat) :
    ∀ gs : List Group, countIn (insertGroup gs key p) j =
      countIn gs j + (if p.1 = j then 1 else 0) := by
  intro gs
  induction gs with
  | nil =>
    rw [insertGroup]
    simp [countIn, List.count_cons, beq_iff_eq]
  | cons g0 rest ih =>
    rcases g0 with ⟨k0, ms⟩
    rw [insertGroup]
    by_cases h : k0 = key
    · rw [if_pos h]
      simp [countIn, List.count_append, List.count_cons, beq_iff_eq]
      omega
    · rw [if_neg h]
      simp only [countIn, List.map_cons, List.sum_cons] at ih ⊢
      omega

/-- The contribution of the rows rs, processed starting at index i, to the
membership count of index j: one exactly when the row that receives index j
is kept by the grouping. -/
def expectedCount (qis : List String) : List Row → Nat → Nat → Nat
  | [], _, _ => 0
  | r :: rs, i, j =>
    (if i = j ∧ keyDropped r qis = false then 1 else 0) + expectedCount qis rs (i + 1) j

theorem countIn_buildGroups (qis : List String) :
    ∀ (rs : List Row) (i : Nat) (acc : List Group) (j : Nat),
      countIn (buildGroups qis rs i acc) j = countIn acc j + expectedCount qis rs i j := by
  intro rs
  induction rs with
  | nil =>
    intro i acc j
    rw [buildGroups, expectedCount]
    omega
  | cons r rs ih =>
    intro i acc j
    rw [buildGroups, expectedCount]
    by_cases hd : keyDropped r qis = true
    · rw [if_pos hd, ih]
      have hni : ¬ (i = j ∧ keyDropped r qis = false) := by
        intro hc
        rw [hd] at hc
        exact absurd hc.2 (by simp)
      rw [if_neg hni]
      omega
    · have hkd : keyDropped r qis = false := by
        revert hd
        cases keyDropped r qis <;> simp
      rw [if_neg hd, ih, countIn_insertGroup]
      by_cases hij : i = j
      · rw [if_pos hij, if_pos ⟨hij, hkd⟩]
        omega
      · rw [if_neg hij, if_neg (fun hc => hij hc.1)]
        omega

theorem expectedCount_of_lt (qis : List String) :
    ∀ (rs : List Row) (i j : Nat), j < i → expectedCount qis rs i j = 0 := by
  intro rs
  induction rs with
  | nil =>
    intro i j h
    rfl
  | cons r rs ih =>
    intro i j h
    rw [expectedCount, if_neg (fun hc => absurd hc.1 (by omega)), ih (i + 1) j (by omega)]

theorem expectedCount_get (qis : List String) :
    ∀ (rs : List Row) (i j : Nat), i ≤ j → j - i < rs.length →
      expectedCount qis rs i j = if keyDropped (rs.getD (j - i) []) qis then 0 else 1 := by
  intro rs
  induction rs with
  | nil =>
    intro i j h1 h2
    simp at h2
  | cons r rs ih =>
    intro i j h1 h2
    rw [expectedCount]
    by_cases hij : i = j
    · subst hij
      rw [Nat.sub_self]
      have h0 : (r :: rs).getD 0 [] = r := rfl
      rw [h0, expectedCount_of_lt qis rs (i + 1) i (by omega)]
      by_cases hkd : keyDropped r qis = true
      · rw [if_pos hkd, if_neg (fun hc => by rw [hkd] at hc; exact absurd hc.2 (by simp))]
      · have hkd' : keyDropped r qis = false := by
          revert hkd
          cases keyDropped r qis <;> simp
        rw [if_pos ⟨rfl, hkd'⟩, if_neg hkd]
    · rw [if_neg (fun hc => hij hc.1)]
      have hlen : j - (i + 1) < rs.length := by
        rw [List.length_cons] at h2
        omega
      rw [ih (i + 1) j (by omega) hlen]
      have hget : (r :: rs).getD (j - i) [] = rs.getD (j - (i + 1)) [] := by
        have hji : j - i = (j - (i + 1)) + 1 := by omega
        rw [hji]
        rfl
      rw [hget]
      omega

/-- C6 is false as stated: a record whose generalized quasi-identifier value
is out of domain is silently excluded from every class.  pd.cut with bins
[0, 100) sends age 100 to NaN, and groupby (dropna default) then drops the
row, so the one-record generalized frame has no equivalence class at all and
the classes do not cover the dataset. -/
theorem claim_c6_counterexample :
    (generalize_age [[("Age", Val.int 100)]] [0, 100] ["0-99"]).length = 1 ∧
    get_equivalence_classes (generalize_age [[("Age", Val.int 100)]] [0, 100] ["0-99"]) ["Age"] =
      [] := by
  decide

/-- C6 (amended).  For a non-empty quasi-identifier set, the classes are
pairwise disjoint and cover exactly the rows whose quasi-identifier key has no
missing value: such a row's index occurs in exactly one member list (total
multiplicity one), while a row with a missing or out-of-domain (NaN) value
occurs in none (multiplicity zero). -/
theorem claim_c6_partition (df : DataFrame) (qis : List String) (hq : qis ≠ [])
    (i : Nat) (hi : i < df.length) :
    countIn (get_equivalence_classes df qis) i =
      if keyDropped (df.getD i []) qis then 0 else 1 := by
  unfold get_equivalence_classes
  rw [countIn_buildGroups qis df 0 [] i,
    expectedCount_get qis df 0 i (Nat.zero_le i) (by omega)]
  simp [countIn]

theorem claim_c6_witness :
    countIn (get_equivalence_classes [[("Age", Val.int 30)], [("Age", Val.missing)]] ["Age"]) 0 =
      (if keyDropped ([[("Age", Val.int 30)], [("Age", Val.missing)]].getD 0 []) ["Age"]
        then 0 else 1) :=
  claim_c6_partition [[("Age", Val.int 30)], [("Age", Val.missing)]] ["Age"] (by decide) 0
    (by decide)

/-! ### Claim C5: the linkage-risk simulator -/

/-- The sum of the class sizes. -/
def sizesSum (gs : List Group) : Nat :=
  (gs.map (fun g => g.2.length)).sum

theorem sizesSum_insertGroup (key : List Val) (p : Nat × Row) :
    ∀ gs : List Group, sizesSum (insertGroup gs key p) = sizesSum gs + 1 := by
  intro gs
  induction gs with
  | nil =>
    rw [insertGroup]
    simp [sizesSum]
  | cons g0 rest ih =>
    rcases g0 with ⟨k0, ms⟩
    rw [insertGroup]
    by_cases h : k0 = key
    · rw [if_pos h]
      simp [sizesSum]
      omega
    · rw [if_neg h]
      simp only [sizesSum, List.map_cons, List.sum_cons] at ih ⊢
      omega

theorem sizesSum_buildGroups (qis : List String) :
    ∀ (rs : List Row) (i : Nat) (acc : List Group),
      sizesSum (buildGroups qis rs i acc) ≤ sizesSum acc + rs.length := by
  intro rs
  induction rs with
  | nil =>
    intro i acc
    rw [buildGroups]
    omega
  | cons r rs ih =>
    intro i acc
    rw [buildGroups]
    by_cases hd : keyDropped r qis = true
    · rw [if_pos hd]
      have := ih (i + 1) acc
      simp only [List.length_cons]
      omega
    · rw [if_neg hd]
      have := ih (i + 1) (insertGroup acc (rowKey r qis) (i, r))
      rw [sizesSum_insertGroup] at this
      simp only [List.length_cons]
      omega

theorem length_le_sum_of_one_le :
    ∀ l : List Nat, (∀ x ∈ l, 1 ≤ x) → l.length ≤ l.sum := by
  intro l
  induction l with
  | nil =>
    intro _
    simp
  | cons x xs ih =>
    intro h
    rw [List.length_cons, List.sum_cons]
    have h1 := h x (List.mem_cons_self _ _)
    have h2 := ih (fun y hy => h y (List.mem_cons_of_mem _ hy))
    omega

theorem groupSizes_one_le (df : DataFrame) (qis : List String) :
    ∀ s ∈ groupSizes df qis, 1 ≤ s := by
  intro s hs
  rcases List.mem_map.mp hs with ⟨g, hg, hgs⟩
  have hne := buildGroups_mem_ne_nil qis df 0 []
    (fun g' hg' => absurd hg' (List.not_mem_nil g')) g hg
  rw [← hgs]
  exact List.length_pos.mpr hne

theorem singleton_count_le_length (df : DataFrame) (qis : List String) :
    ((groupSizes df qis).filter (fun s => s == 1)).length ≤ df.length := by
  calc ((groupSizes df qis).filter (fun s => s == 1)).length
      ≤ (groupSizes df qis).length := List.length_filter_le _ _
    _ ≤ (groupSizes df qis).sum := length_le_sum_of_one_le _ (groupSizes_one_le df qis)
    _ = sizesSum (get_equivalence_classes df qis) := rfl
    _ ≤ sizesSum [] + df.length := sizesSum_buildGroups qis df 0 []
    _ = df.length := by simp [sizesSum]

/-- C5.  simulate_linkage_attack returns the number of size-one classes over
the record count (0 for an empty frame); the result lies in [0, 1]; and it is
0 exactly when every equivalence class under the attacker set has size at
least two. -/
theorem claim_c5_linkage_risk (df : DataFrame) (qis : List String) (hq : qis ≠ []) :
    (0 < df.length →
      simulate_linkage_attack df qis =
        (((groupSizes df qis).filter (fun s => s == 1)).length : Rat) / (df.length : Rat))
    ∧ 0 ≤ simulate_linkage_attack df qis
    ∧ simulate_linkage_attack df qis ≤ 1
    ∧ (df = [] → simulate_linkage_attack df qis = 0)
    ∧ (simulate_linkage_attack df qis = 0 ↔
        ∀ g ∈ get_equivalence_classes df qis, 2 ≤ g.2.length) := by
  cases df with
  | nil =>
    refine ⟨fun h => absurd h (by simp), le_refl 0, by rw [show simulate_linkage_attack [] qis = 0 from rfl]; norm_num, fun _ => rfl, ?_⟩
    constructor
    · intro _ g hg
      exact absurd hg (List.not_mem_nil g)
    · intro _
      rfl
  | cons r rs =>
    have hlen : 0 < (r :: rs).length := by simp
    have hformula : simulate_linkage_attack (r :: rs) qis =
        (((groupSizes (r :: rs) qis).filter (fun s => s == 1)).length : Rat) /
          ((r :: rs).length : Rat) := by
      unfold simulate_linkage_attack
      rw [if_pos hlen]
    have hden : (0 : Rat) < (((r :: rs).length : Nat) : Rat) := by
      exact_mod_cast hlen
    have hnum : ((((groupSizes (r :: rs) qis).filter (fun s => s == 1)).length : Nat) : Rat) ≤
        (((r :: rs).length : Nat) : Rat) := by
      exact_mod_cast singleton_count_le_length (r :: rs) qis
    refine ⟨fun _ => hformula, ?_, ?_, fun h => absurd h (by simp), ?_⟩
    · rw [hformula]
      exact div_nonneg (by positivity) (le_of_lt hden)
    · rw [hformula]
      rw [div_le_one hden]
      exact hnum
    · rw [hformula]
      rw [div_eq_zero_iff]
      constructor
      · intro h g hg
        have hu : (((groupSizes (r :: rs) qis).filter (fun s => s == 1)).length : Rat) = 0 := by
          rcases h with h | h
          · exact h
          · exact absurd h (ne_of_gt hden)
        have hu' : ((groupSizes (r :: rs) qis).filter (fun s => s == 1)).length = 0 := by
          exact_mod_cast hu
        have hfilter := List.length_eq_zero.mp hu'
        have hall : ∀ s ∈ groupSizes (r :: rs) qis, ¬ ((s == 1) = true) :=
          List.filter_eq_nil_iff.mp hfilter
        have hmem : g.2.length ∈ groupSizes (r :: rs) qis :=
          List.mem_map.mpr ⟨g, hg, rfl⟩
        have h1 := groupSizes_one_le (r :: rs) qis g.2.length hmem
        have hne1 := hall g.2.length hmem
        simp only [beq_iff_eq] at hne1
        omega
      · intro h
        left
        have hfilter : (groupSizes (r :: rs) qis).filter (fun s => s == 1) = [] := by
          rw [List.filter_eq_nil_iff]
          intro s hs
          rcases List.mem_map.mp hs with ⟨g, hg, hgs⟩
          have := h g hg
          simp only [beq_iff_eq]
          omega
        rw [hfilter]
        simp

theorem claim_c5_witness :
    0 ≤ simulate_linkage_attack [[("Age", Val.int 22)], [("Age", Val.int 22)]] ["Age"]
    ∧ simulate_linkage_attack [[("Age", Val.int 22)], [("Age", Val.int 22)]] ["Age"] ≤ 1
    ∧ (simulate_linkage_attack [[("Age", Val.int 22)], [("Age", Val.int 22)]] ["Age"] = 0 ↔
        ∀ g ∈ get_equivalence_classes [[("Age", Val.int 22)], [("Age", Val.int 22)]] ["Age"],
          2 ≤ g.2.length) := by
  obtain ⟨_, h2, h3, _, h5⟩ :=
    claim_c5_linkage_risk [[("Age", Val.int 22)], [("Age", Val.int 22)]] ["Age"] (by decide)
  exact ⟨h2, h3, h5⟩

/-! ### Claim C7: the l-diversity check -/

/-- C7.  check_l_diversity reports satisfied exactly when the failing list is
empty, and every reported failing class has diversity (distinct non-missing
sensitive values) strictly below l.  The check is a pure function of the
frame: it returns its verdict as data and has no failure path. -/
theorem claim_c7_l_diversity (df : DataFrame) (sensitive_col : String)
    (qis : List String) (l_val : Int) (hq : qis ≠ []) :
    ((check_l_diversity df sensitive_col qis l_val).1 = true ↔
      (check_l_diversity df sensitive_col qis l_val).2 = [])
    ∧ ∀ p ∈ (check_l_diversity df sensitive_col qis l_val).2, (p.2 : Int) < l_val := by
  constructor
  · unfold check_l_diversity
    simp only []
    exact List.isEmpty_iff
  · intro p hp
    unfold check_l_diversity at hp
    simp only [] at hp
    rcases List.mem_filterMap.mp hp with ⟨g, hg, hfg⟩
    by_cases hlt :
        ((distinctCount (g.2.map (fun q => getVal q.2 sensitive_col)) : Int) < l_val)
    · rw [if_pos hlt, Option.some_inj] at hfg
      rw [← hfg]
      exact hlt
    · rw [if_neg hlt] at hfg
      exact absurd hfg (by simp)

theorem claim_c7_witness :
    ((check_l_diversity
        [[("Age", Val.int 22), ("Diagnosis", Val.str "Flu")],
         [("Age", Val.int 22), ("Diagnosis", Val.missing)]] "Diagnosis" ["Age"] 2).1 = true ↔
      (check_l_diversity
        [[("Age", Val.int 22), ("Diagnosis", Val.str "Flu")],
         [("Age", Val.int 22), ("Diagnosis", Val.missing)]] "Diagnosis" ["Age"] 2).2 = [])
    ∧ ∀ p ∈ (check_l_diversity
        [[("Age", Val.int 22), ("Diagnosis", Val.str "Flu")],
         [("Age", Val.int 22), ("Diagnosis", Val.missing)]] "Diagnosis" ["Age"] 2).2,
        (p.2 : Int) < 2 :=
  claim_c7_l_diversity _ "Diagnosis" ["Age"] 2 (by decide)

/-! ### Claims C4 and C8: the tokenizer -/

/-- A fixed-width string of the SHA-256 hexdigest width: 64 lowercase
hexadecimal characters. -/
def isHex64 (s : String) : Bool :=
  s.length == 64 && s.toList.all (fun ch => ch.isDigit || (('a' ≤ ch) && (ch ≤ 'f')))

theorem getD_map_of_lt {α β : Type} (f : α → β) (l : List α) (i : Nat) (d : β) (d' : α)
    (h : i < l.length) : (l.map f).getD i d = f (l.getD i d') := by
  rw [List.getD_eq_getElem?_getD, List.getD_eq_getElem?_getD, List.getElem?_map,
    List.getElem?_eq_getElem h]
  rfl

theorem getD_mem_of_lt {α : Type} (l : List α) (i : Nat) (d : α) (h : i < l.length) :
    l.getD i d ∈ l := by
  rw [List.getD_eq_getElem?_getD, List.getElem?_eq_getElem h]
  exact List.getElem_mem h

theorem tokenize_ids_some (H : String → String → String) (df : DataFrame) (id_col : String)
    (out : DataFrame × List (String × String))
    (hout : tokenize_ids H df id_col = some out) :
    out.1 = df.map (fun r =>
      setVal r id_col (match getVal r id_col with
        | Val.str s => Val.str (H HMAC_SECRET_KEY s)
        | v => v)) := by
  unfold tokenize_ids at hout
  by_cases hall :
      (df.all fun r => match getVal r id_col with | Val.str _ => true | _ => false) = true
  · rw [if_pos hall, Option.some_inj] at hout
    rw [← hout]
    rfl
  · rw [if_neg hall] at hout
    exact absurd hout (by simp)

theorem tokenize_token_at (H : String → String → String) (df : DataFrame) (id_col : String)
    (out : DataFrame × List (String × String))
    (hout : tokenize_ids H df id_col = some out) (i : Nat) (hi : i < df.length) :
    getVal (out.1.getD i []) id_col =
      (match getVal (df.getD i []) id_col with
       | Val.str s => Val.str (H HMAC_SECRET_KEY s)
       | v => v) := by
  rw [tokenize_ids_some H df id_col out hout, getD_map_of_lt _ df i [] [] hi,
    getVal_setVal_self]

/-- C4 is false as stated: the keyed-hash secret is not supplied by the
caller.  tokenize_ids takes no key parameter; its inner generate_token feeds
the module constant HMAC_SECRET_KEY — the byte literal baked into
scripts/anonymize.py — as the key of every hash call, as exposing the key
argument of a transparent hash shows. -/
theorem claim_c4_counterexample :
    HMAC_SECRET_KEY = "bcse318l-secret-key-for-reproducible-tokenization"
    ∧ generate_token (fun key value => String.append (String.append key "/") value) "alice" =
        "bcse318l-secret-key-for-reproducible-tokenization/alice" := by
  constructor
  · rfl
  · rfl

/-- C4 (amended).  The tokenizer's keyed-hash secret is the baked-in module
constant HMAC_SECRET_KEY; the tokenize operation receives no key from the
caller, and on success every token of the identifier column is the hash of
the original identifier under that one compiled-in key. -/
theorem claim_c4_hardcoded_key (H : String → String → String) (df : DataFrame)
    (id_col : String) (out : DataFrame × List (String × String))
    (hout : tokenize_ids H df id_col = some out) :
    (∀ value, generate_token H value = H HMAC_SECRET_KEY value)
    ∧ ∀ i, i < df.length →
        getVal (out.1.getD i []) id_col =
          (match getVal (df.getD i []) id_col with
           | Val.str s => Val.str (H HMAC_SECRET_KEY s)
           | v => v) :=
  ⟨fun _ => rfl, fun i hi => tokenize_token_at H df id_col out hout i hi⟩

theorem claim_c4_witness :
    (∀ value, generate_token (fun _ value => value) value =
      (fun _ value => value : String → String → String) HMAC_SECRET_KEY value)
    ∧ ∀ i, i < ([[("Patient_ID", Val.str "a")]] : DataFrame).length →
        getVal (((([[("Patient_ID", Val.str "a")]].map
          (fun r => setVal r "Patient_ID" (Val.str "a"))),
          ([("a", "a")] : List (String × String))) : DataFrame × List (String × String)).1.getD i [])
          "Patient_ID" =
          (match getVal (([[("Patient_ID", Val.str "a")]] : DataFrame).getD i []) "Patient_ID" with
           | Val.str s => Val.str ((fun _ value => value : String → String → String)
              HMAC_SECRET_KEY s)
           | v => v) :=
  claim_c4_hardcoded_key (fun _ value => value) [[("Patient_ID", Val.str "a")]] "Patient_ID"
    _ (by decide)

/-- C8.  Tokenization through tokenize_ids is deterministic: rows with equal
identifier values receive equal tokens; when the hash returns 64-character
hexadecimal digests (as the SHA-256 hexdigest does) every produced token is a
64-character hexadecimal string; and rows with distinct identifiers receive
distinct tokens provided the keyed hash is collision-free on them (the
overwhelming-probability guarantee of SHA-256). -/
theorem claim_c8_token_properties (H : String → String → String) (df : DataFrame)
    (id_col : String) (out : DataFrame × List (String × String))
    (hout : tokenize_ids H df id_col = some out) :
    (∀ i j, i < df.length → j < df.length →
      getVal (df.getD i []) id_col = getVal (df.getD j []) id_col →
      getVal (out.1.getD i []) id_col = getVal (out.1.getD j []) id_col)
    ∧ ((∀ s, isHex64 (H HMAC_SECRET_KEY s) = true) →
        ∀ v ∈ colView out.1 id_col, ∃ t, v = Val.str t ∧ isHex64 t = true)
    ∧ ((∀ s1 s2, s1 ≠ s2 → H HMAC_SECRET_KEY s1 ≠ H HMAC_SECRET_KEY s2) →
        ∀ i j, i < df.length → j < df.length →
        getVal (df.getD i []) id_col ≠ getVal (df.getD j []) id_col →
        getVal (out.1.getD i []) id_col ≠ getVal (out.1.getD j []) id_col) := by
  have hall : ∀ r ∈ df, ∃ s, getVal r id_col = Val.str s := by
    intro r hr
    revert hout
    unfold tokenize_ids
    by_cases hb :
        (df.all fun r => match getVal r id_col with | Val.str _ => true | _ => false) = true
    · intro _
      have := List.all_eq_true.mp hb r hr
      rcases hv : getVal r id_col with n | str | _
      · rw [hv] at this
        exact absurd this (by simp)
      · exact ⟨str, rfl⟩
      · rw [hv] at this
        exact absurd this (by simp)
    · rw [if_neg hb]
      intro hout
      exact absurd hout (by simp)
  refine ⟨?_, ?_, ?_⟩
  · intro i j hi hj heq
    rw [tokenize_token_at H df id_col out hout i hi,
      tokenize_token_at H df id_col out hout j hj, heq]
  · intro hhex v hv
    unfold colView at hv
    rcases List.mem_map.mp hv with ⟨r, hr, hrv⟩
    have hr' : r ∈ df.map (fun r =>
        setVal r id_col (match getVal r id_col with
          | Val.str s => Val.str (H HMAC_SECRET_KEY s)
          | v => v)) := by
      rw [← tokenize_ids_some H df id_col out hout]
      exact hr
    rcases List.mem_map.mp hr' with ⟨r0, hr0, hrr0⟩
    rcases hall r0 hr0 with ⟨s, hs⟩
    refine ⟨H HMAC_SECRET_KEY s, ?_, hhex s⟩
    rw [← hrv, ← hrr0, hs, getVal_setVal_self]
  · intro hinj i j hi hj hne
    rw [tokenize_token_at H df id_col out hout i hi,
      tokenize_token_at H df id_col out hout j hj]
    rcases hall (df.getD i []) (getD_mem_of_lt df i [] hi) with ⟨si, hsi⟩
    rcases hall (df.getD j []) (getD_mem_of_lt df j [] hj) with ⟨sj, hsj⟩
    rw [hsi, hsj]
    rw [hsi, hsj] at hne
    intro hcontra
    rw [Val.str.injEq] at hcontra
    exact hinj si sj (fun hss => hne (by rw [hss])) hcontra

theorem claim_c8_witness :
    getVal ((((([[("Patient_ID", Val.str "a")], [("Patient_ID", Val.str "a")]].map
        (fun r => setVal r "Patient_ID" (Val.str "a"))),
        ([("a", "a")] : List (String × String))) : DataFrame × List (String × String)).1.getD 0 []))
      "Patient_ID" =
    getVal ((((([[("Patient_ID", Val.str "a")], [("Patient_ID", Val.str "a")]].map
        (fun r => setVal r "Patient_ID" (Val.str "a"))),
        ([("a", "a")] : List (String × String))) : DataFrame × List (String × String)).1.getD 1 []))
      "Patient_ID" :=
  (claim_c8_token_properties (fun _ value => value)
    [[("Patient_ID", Val.str "a")], [("Patient_ID", Val.str "a")]] "Patient_ID" _
    (by decide)).1 0 1 (by decide) (by decide) (by decide)

/-! ### Claim C2: the NCP metric -/

theorem foldl_max_ge {α : Type} [LinearOrder α] :
    ∀ (xs : List α) (x y : α), y ∈ x :: xs → y ≤ xs.foldl max x := by
  intro xs
  induction xs with
  | nil =>
    intro x y hy
    rw [List.mem_singleton] at hy
    subst hy
    exact le_refl _
  | cons z zs ih =>
    intro x y hy
    rw [List.foldl_cons]
    rcases List.mem_cons.mp hy with h1 | h1
    · subst h1
      exact le_trans (le_max_left y z) (ih (max y z) (max y z) (List.mem_cons_self _ _))
    · rcases List.mem_cons.mp h1 with h2 | h2
      · subst h2
        exact le_trans (le_max_right x y) (ih (max x y) (max x y) (List.mem_cons_self _ _))
      · exact ih (max x z) y (List.mem_cons_of_mem _ h2)

theorem listMin?_le_listMax? {α : Type} [LinearOrder α] {l : List α} {mn mx : α}
    (h1 : listMin? l = some mn) (h2 : listMax? l = some mx) : mn ≤ mx := by
  cases l with
  | nil => exact absurd h1 (by simp [listMin?])
  | cons x xs =>
    rw [listMin?, Option.some_inj] at h1
    rw [listMax?, Option.some_inj] at h2
    rw [← h1, ← h2]
    exact foldl_max_ge xs x _ (foldl_min_mem xs x)

theorem ageColNCP_eq_of_minmax {origCol : List Val} {mn mx : Int}
    (h1 : listMin? (colInts origCol) = some mn) (h2 : listMax? (colInts origCol) = some mx)
    (anonCol : List Val) :
    ageColNCP origCol anonCol =
      if mx - mn = 0 then 0
      else ((anonCol.filterMap ageRowRange).map
        (fun (d : Nat) => (d : Rat) / ((mx - mn : Int) : Rat))).sum := by
  unfold ageColNCP
  rw [h1, h2]

theorem ageColNCP_nonneg (origCol anonCol : List Val) : 0 ≤ ageColNCP origCol anonCol := by
  rcases h1 : listMin? (colInts origCol) with _ | mn
  · unfold ageColNCP
    rw [h1]
  · rcases h2 : listMax? (colInts origCol) with _ | mx
    · unfold ageColNCP
      rw [h1, h2]
    · rw [ageColNCP_eq_of_minmax h1 h2]
      by_cases hr : mx - mn = 0
      · rw [if_pos hr]
      · rw [if_neg hr]
        apply List.sum_nonneg
        intro q hq
        rcases List.mem_map.mp hq with ⟨d, hd, hdq⟩
        rw [← hdq]
        have hmn : mn ≤ mx := listMin?_le_listMax? h1 h2
        have hge : (0 : Rat) ≤ ((mx - mn : Int) : Rat) := by
          have h0 : (0 : Int) ≤ mx - mn := by omega
          exact_mod_cast h0
        exact div_nonneg (Nat.cast_nonneg d) hge

theorem zipColNCP_nonneg (anonCol : List Val) : 0 ≤ zipColNCP anonCol := by
  unfold zipColNCP
  apply List.sum_nonneg
  intro q hq
  rcases List.mem_map.mp hq with ⟨v, hv, hvq⟩
  rw [← hvq]
  positivity

theorem qiNCP_nonneg (orig anon : DataFrame) (qi : String) : 0 ≤ qiNCP orig anon qi := by
  unfold qiNCP
  by_cases h1 : (isNumericCol (colView orig qi) && qi == "Age") = true
  · rw [if_pos h1]
    exact ageColNCP_nonneg _ _
  · rw [if_neg h1]
    by_cases h2 : (qi == "ZIP_Code") = true
    · rw [if_pos h2]
      exact zipColNCP_nonneg _
    · rw [if_neg h2]

theorem digitChar_ne_dash (d : Nat) : digitChar d ≠ '-' := by
  unfold digitChar
  split <;> decide

theorem natDigitsCore_ne_dash :
    ∀ (fuel n : Nat) (acc : List Char), (∀ c ∈ acc, c ≠ '-') →
      ∀ c ∈ natDigitsCore fuel n acc, c ≠ '-' := by
  intro fuel
  induction fuel with
  | zero =>
    intro n acc hacc
    exact hacc
  | succ f ih =>
    intro n acc hacc c hc
    rw [natDigitsCore] at hc
    by_cases hn : n < 10
    · rw [if_pos hn] at hc
      rcases List.mem_cons.mp hc with h | h
      · rw [h]
        exact digitChar_ne_dash n
      · exact hacc c h
    · rw [if_neg hn] at hc
      refine ih (n / 10) (digitChar (n % 10) :: acc) ?_ c hc
      intro c' hc'
      rcases List.mem_cons.mp hc' with h | h
      · rw [h]
        exact digitChar_ne_dash _
      · exact hacc c' h

theorem natChars_ne_dash (n : Nat) : ∀ c ∈ natChars n, c ≠ '-' :=
  natDigitsCore_ne_dash (n + 1) n [] (fun c hc => absurd hc (List.not_mem_nil c))

theorem splitOnDash_no_dash :
    ∀ cs : List Char, (∀ c ∈ cs, c ≠ '-') → splitOnDash cs = [cs] := by
  intro cs
  induction cs with
  | nil =>
    intro _
    rfl
  | cons c rest ih =>
    intro h
    have hr := ih (fun x hx => h x (List.mem_cons_of_mem _ hx))
    simp only [splitOnDash]
    rw [hr, if_neg (h c (List.mem_cons_self _ _))]

theorem ageRowRange_missing : ageRowRange Val.missing = none := by decide

theorem splitOnDash_cons_dash (cs : List Char) :
    splitOnDash ('-' :: cs) = [] :: splitOnDash cs := rfl

theorem ageRowRange_int (n : Int) :
    ageRowRange (Val.int n) = some 0 ∨ ageRowRange (Val.int n) = none := by
  unfold ageRowRange valToStr
  have htl : (String.mk (intChars n)).toList = intChars n := rfl
  rw [htl]
  unfold intChars
  by_cases hn : n < 0
  · right
    rw [if_pos hn, splitOnDash_cons_dash]
    rfl
  · rw [if_neg hn]
    rw [splitOnDash_no_dash (natChars n.toNat) (natChars_ne_dash n.toNat)]
    rcases hlo : parseIntChars (natChars n.toNat) with _ | lo
    · right
      simp [hlo]
    · left
      simp [hlo]

theorem ageColNCP_eq_zero (origCol anonCol : List Val)
    (hnum : isNumericCol anonCol = true) : ageColNCP origCol anonCol = 0 := by
  rcases h1 : listMin? (colInts origCol) with _ | mn
  · unfold ageColNCP
    rw [h1]
  · rcases h2 : listMax? (colInts origCol) with _ | mx
    · unfold ageColNCP
      rw [h1, h2]
    · rw [ageColNCP_eq_of_minmax h1 h2]
      by_cases hr : mx - mn = 0
      · rw [if_pos hr]
      · rw [if_neg hr]
        apply List.sum_eq_zero
        intro q hq
        rcases List.mem_map.mp hq with ⟨d, hd, hdq⟩
        rcases List.mem_filterMap.mp hd with ⟨v, hv, hvd⟩
        have hv' := List.all_eq_true.mp hnum v hv
        rcases v with nn | str | _
        · rcases ageRowRange_int nn with h | h
          · rw [h, Option.some_inj] at hvd
            rw [← hdq, ← hvd]
            norm_num
          · rw [h] at hvd
            exact absurd hvd (by simp)
        · exact Bool.noConfusion hv'
        · rw [ageRowRange_missing] at hvd
          exact absurd hvd (by simp)

theorem zipColNCP_eq_zero (anonCol : List Val)
    (h : ∀ v ∈ anonCol, countStars (valToStr v) = 0) : zipColNCP anonCol = 0 := by
  unfold zipColNCP
  apply List.sum_eq_zero
  intro q hq
  rcases List.mem_map.mp hq with ⟨v, hv, hvq⟩
  rw [← hvq, h v hv]
  norm_num

theorem qiNCP_eq_zero (orig anon : DataFrame) (qi : String)
    (heq : colView anon qi = colView orig qi)
    (hstar : ∀ v ∈ colView orig "ZIP_Code", countStars (valToStr v) = 0) :
    qiNCP orig anon qi = 0 := by
  unfold qiNCP
  by_cases h1 : (isNumericCol (colView orig qi) && qi == "Age") = true
  · rw [if_pos h1]
    have hqi : qi = "Age" := beq_iff_eq.mp ((Bool.and_eq_true _ _).mp h1).2
    subst hqi
    apply ageColNCP_eq_zero
    rw [heq]
    exact ((Bool.and_eq_true _ _).mp h1).1
  · rw [if_neg h1]
    by_cases h2 : (qi == "ZIP_Code") = true
    · rw [if_pos h2]
      have hqi : qi = "ZIP_Code" := beq_iff_eq.mp h2
      subst hqi
      apply zipColNCP_eq_zero
      intro v hv
      rw [heq] at hv
      exact hstar v hv
    · rw [if_neg h2]

/-- C2 is false as stated.  First, the value is not bounded by 1: on original
ages 0 and 1 (range 1) with both anonymized to the interval 0-99, the metric
is 99.  Second, zero does not imply the frames agree on the
quasi-identifiers: any attribute without a generalization rule (here Gender)
contributes 0 even when its values were changed. -/
theorem claim_c2_counterexample :
    1 < compute_ncp [[("Age", Val.int 0)], [("Age", Val.int 1)]]
        [[("Age", Val.str "0-99")], [("Age", Val.str "0-99")]] ["Age"]
    ∧ compute_ncp [[("Gender", Val.str "M")]] [[("Gender", Val.str "F")]] ["Gender"] = 0
    ∧ getVal [("Gender", Val.str "F")] "Gender" ≠ getVal [("Gender", Val.str "M")] "Gender" := by
  refine ⟨?_, ?_, by decide⟩
  · have hmin : listMin? (colInts
        (colView [[("Age", Val.int 0)], [("Age", Val.int 1)]] "Age")) = some 0 := by decide
    have hmax : listMax? (colInts
        (colView [[("Age", Val.int 0)], [("Age", Val.int 1)]] "Age")) = some 1 := by decide
    have hfil : (colView [[("Age", Val.str "0-99")], [("Age", Val.str "0-99")]]
        "Age").filterMap ageRowRange = [99, 99] := by decide
    have hnum : (isNumericCol (colView [[("Age", Val.int 0)], [("Age", Val.int 1)]] "Age") &&
        "Age" == "Age") = true := by decide
    unfold compute_ncp
    rw [if_pos (by norm_num :
      0 < ([[("Age", Val.int 0)], [("Age", Val.int 1)]] : DataFrame).length)]
    simp only [List.map_cons, List.map_nil, List.sum_cons, List.sum_nil]
    unfold qiNCP
    rw [if_pos hnum]
    unfold ageColNCP
    rw [hmin, hmax]
    norm_num [hfil]
  · have hb1 : ¬ ((isNumericCol (colView [[("Gender", Val.str "M")]] "Gender") &&
        "Gender" == "Age") = true) := by decide
    have hb2 : ¬ (("Gender" == "ZIP_Code") = true) := by decide
    unfold compute_ncp
    rw [if_pos (by norm_num : 0 < ([[("Gender", Val.str "M")]] : DataFrame).length)]
    simp only [List.map_cons, List.map_nil, List.sum_cons, List.sum_nil]
    unfold qiNCP
    rw [if_neg hb1, if_neg hb2]
    norm_num

/-- C2 (amended).  For every original frame, anonymized frame and non-empty
quasi-identifier list: compute_ncp is nonnegative (it can exceed 1, since an
anonymized interval may be wider than the observed original range); for a
nonempty frame the total is exactly the sum of the per-attribute
contributions divided by (record count times number of quasi-identifiers);
the result is 0.0 for an empty frame; and the result is 0 whenever the
anonymized frame equals the original on every quasi-identifier column and the
original postal codes contain no mask character (the converse fails:
attributes without a generalization rule always contribute 0). -/
theorem claim_c2_ncp_properties (orig anon : DataFrame) (qis : List String)
    (hq : qis ≠ []) :
    0 ≤ compute_ncp orig anon qis
    ∧ (0 < orig.length →
        compute_ncp orig anon qis =
          (qis.map (fun qi => qiNCP orig anon qi)).sum /
            ((orig.length : Rat) * (qis.length : Rat)))
    ∧ (orig = [] → compute_ncp orig anon qis = 0)
    ∧ ((∀ qi ∈ qis, colView anon qi = colView orig qi) →
        (∀ v ∈ colView orig "ZIP_Code", countStars (valToStr v) = 0) →
        compute_ncp orig anon qis = 0) := by
  refine ⟨?_, ?_, ?_, ?_⟩
  · unfold compute_ncp
    by_cases h : 0 < orig.length
    · rw [if_pos h]
      apply div_nonneg
      · apply List.sum_nonneg
        intro q hqq
        rcases List.mem_map.mp hqq with ⟨qi, _, hqi⟩
        rw [← hqi]
        exact qiNCP_nonneg orig anon qi
      · positivity
    · rw [if_neg h]
  · intro h
    unfold compute_ncp
    rw [if_pos h]
  · intro h
    subst h
    rfl
  · intro heq hstar
    unfold compute_ncp
    have hsum : (qis.map (fun qi => qiNCP orig anon qi)).sum = 0 := by
      apply List.sum_eq_zero
      intro q hqq
      rcases List.mem_map.mp hqq with ⟨qi, hqi, hq2⟩
      rw [← hq2]
      exact qiNCP_eq_zero orig anon qi (heq qi hqi) hstar
    rw [hsum]
    by_cases h : 0 < orig.length
    · rw [if_pos h, zero_div]
    · rw [if_neg h]

theorem claim_c2_witness :
    0 ≤ compute_ncp [[("Age", Val.int 5)]] [[("Age", Val.int 5)]] ["Age"]
    ∧ compute_ncp [[("Age", Val.int 5)]] [[("Age", Val.int 5)]] ["Age"] = 0 := by
  obtain ⟨h1, _, _, h4⟩ :=
    claim_c2_ncp_properties [[("Age", Val.int 5)]] [[("Age", Val.int 5)]] ["Age"] (by decide)
  exact ⟨h1, h4 (fun qi _ => rfl) (by decide)⟩

end DataPrivacy
